import Mathlib

/-!
Verification of the bitpat pattern-matching library.

The library is a single macro, bitpat!, that compiles a most-significant-first
sequence of pattern tokens (1, 0, _) into a pair of bit masks (relevant, ones)
by a left-to-right shift-and-insert recursion, and expands to the closure
  |value| value & relevant == ones.
The masks are evaluated in the (inferred) integer type of the matched value,
so all accumulator arithmetic wraps at the type's bit width w; we model the
machine integers as natural numbers reduced modulo 2 ^ w at every step.
-/

namespace Bitpat

/-- Pattern tokens: a pattern is written as a sequence of 1, 0 and _ symbols,
most significant first. -/
inductive Token where
  | one
  | zero
  | dontCare
deriving DecidableEq, Repr

/-- The @relevant rule of the macro: whether a bit in the value is relevant
for the match (1 for tokens 1 and 0, 0 for _). -/
def relevant : Token → Nat
  | .one => 1
  | .zero => 1
  | .dontCare => 0

/-- The @is_one rule of the macro: whether the bit must be 1
(1 for token 1, 0 for tokens 0 and _). -/
def is_one : Token → Nat
  | .one => 1
  | .zero => 0
  | .dontCare => 0

/-- The @build recursion of the macro, evaluated in a w-bit unsigned integer
type: for each token, both accumulators are shifted left by one and the
token's relevant / is_one bit is OR-ed in on the right; fixed-width evaluation
wraps, i.e. reduces modulo 2 ^ w. The terminal rule returns the accumulators. -/
def build (w : Nat) : Nat → Nat → List Token → Nat × Nat
  | rel, ones, [] => (rel, ones)
  | rel, ones, t :: rest =>
      build w ((rel <<< 1 ||| relevant t) % 2 ^ w)
              ((ones <<< 1 ||| is_one t) % 2 ^ w) rest

/-- The entry point of the macro: it matches one or more tokens
($($part:tt)+) and starts the @build recursion with both accumulators zero;
an invocation with no tokens matches no rule and is rejected at compile
time, which we model by returning none. -/
def bitpat (w : Nat) (toks : List Token) : Option (Nat × Nat) :=
  match toks with
  | [] => none
  | _ :: _ => some (build w 0 0 toks)

/-- The closure produced by the terminal @build rule:
|value| value & relevant == ones. -/
def matchValue (rel ones value : Nat) : Bool :=
  value &&& rel == ones

/-- The @build recursion with ideal (arbitrary-precision) accumulators: the
arithmetic of the macro expansion before a fixed-width integer type is
chosen. -/
def buildNat : Nat → Nat → List Token → Nat × Nat
  | rel, ones, [] => (rel, ones)
  | rel, ones, t :: rest =>
      buildNat (rel <<< 1 ||| relevant t) (ones <<< 1 ||| is_one t) rest

/-- Closed form of one accumulator of the shift-and-insert recursion:
the token bits f t, most significant first. -/
def maskVal (f : Token → Nat) : List Token → Nat
  | [] => 0
  | t :: rest => f t * 2 ^ rest.length + maskVal f rest

theorem relevant_le_one (t : Token) : relevant t ≤ 1 := by
  cases t <;> simp [relevant]

theorem is_one_le_one (t : Token) : is_one t ≤ 1 := by
  cases t <;> simp [is_one]

theorem shiftLeft_one_or {b : Nat} (r : Nat) (hb : b ≤ 1) :
    r <<< 1 ||| b = 2 * r + b := by
  have hshift : r <<< 1 = 2 * r := by
    rw [Nat.shiftLeft_eq]
    ring
  interval_cases b
  · simp [hshift]
  · rw [hshift]
    apply Nat.eq_of_testBit_eq
    intro i
    cases i with
    | zero => simp [Nat.testBit_or, Nat.mul_add_mod, Nat.add_comm]
    | succ j =>
        rw [Nat.testBit_or, Nat.testBit_succ, Nat.testBit_succ, Nat.testBit_succ]
        have h1 : (2 * r + 1) / 2 = r := by omega
        have h2 : (2 * r) / 2 = r := by omega
        simp [h1, h2]

theorem buildNat_eq (r o : Nat) (toks : List Token) :
    buildNat r o toks =
      (r * 2 ^ toks.length + maskVal relevant toks,
       o * 2 ^ toks.length + maskVal is_one toks) := by
  induction toks generalizing r o with
  | nil => simp [buildNat, maskVal]
  | cons t rest ih =>
      rw [buildNat, ih,
        shiftLeft_one_or r (relevant_le_one t),
        shiftLeft_one_or o (is_one_le_one t)]
      simp only [maskVal, List.length_cons, Prod.mk.injEq]
      constructor <;> ring

theorem maskVal_lt {f : Token → Nat} (hf : ∀ t, f t ≤ 1) (toks : List Token) :
    maskVal f toks < 2 ^ toks.length := by
  induction toks with
  | nil => simp [maskVal]
  | cons t rest ih =>
      have hft := hf t
      simp only [maskVal, List.length_cons, pow_succ]
      have h2 : (0:Nat) < 2 ^ rest.length := Nat.pos_pow_of_pos _ (by omega)
      nlinarith

theorem maskVal_concat (f : Token → Nat) (toks : List Token) (t : Token) :
    maskVal f (toks ++ [t]) = 2 * maskVal f toks + f t := by
  induction toks with
  | nil => simp [maskVal]
  | cons x rest ih =>
      rw [List.cons_append, maskVal, ih, List.length_append]
      simp only [maskVal, List.length_cons, List.length_nil]
      ring

theorem maskVal_testBit {f : Token → Nat} (hf : ∀ t, f t ≤ 1)
    (hf0 : f Token.dontCare = 0) (toks : List Token) (i : Nat) :
    (maskVal f toks).testBit i =
      (f (toks.reverse.getD i Token.dontCare) == 1) := by
  induction toks using List.reverseRecOn generalizing i with
  | nil => simp [maskVal, hf0]
  | append_singleton l t ih =>
      rw [maskVal_concat]
      rcases i with _ | j
      · have hft := hf t
        have hmod : (2 * maskVal f l + f t) % 2 = f t := by omega
        rw [Nat.testBit_zero, hmod, List.reverse_append]
        simp only [List.reverse_cons, List.reverse_nil, List.nil_append,
          List.cons_append, List.getD_cons_zero]
        cases h : f t == 1 <;> simp_all
      · have hft := hf t
        have hdiv : (2 * maskVal f l + f t) / 2 = maskVal f l := by omega
        rw [Nat.testBit_add_one, hdiv, ih, List.reverse_append]
        simp only [List.reverse_cons, List.reverse_nil, List.nil_append,
          List.cons_append, List.getD_cons_succ]

theorem build_eq (w : Nat) (r o : Nat) (toks : List Token) :
    build w (r % 2 ^ w) (o % 2 ^ w) toks =
      ((buildNat r o toks).1 % 2 ^ w, (buildNat r o toks).2 % 2 ^ w) := by
  induction toks generalizing r o with
  | nil => simp [build, buildNat]
  | cons t rest ih =>
      have key : ∀ a b : Nat, b ≤ 1 →
          ((a % 2 ^ w) <<< 1 ||| b) % 2 ^ w = (a <<< 1 ||| b) % 2 ^ w := by
        intro a b hb
        rw [shiftLeft_one_or _ hb, shiftLeft_one_or _ hb]
        exact ((Nat.mod_modEq a (2 ^ w)).mul_left 2).add_right b
      rw [build, buildNat, key _ _ (relevant_le_one t), key _ _ (is_one_le_one t)]
      calc build w ((r <<< 1 ||| relevant t) % 2 ^ w)
              ((o <<< 1 ||| is_one t) % 2 ^ w) rest
          = ((buildNat (r <<< 1 ||| relevant t) (o <<< 1 ||| is_one t) rest).1 % 2 ^ w,
             (buildNat (r <<< 1 ||| relevant t) (o <<< 1 ||| is_one t) rest).2 % 2 ^ w) :=
            ih _ _
        _ = _ := rfl

theorem build_zero_eq (w : Nat) (toks : List Token) :
    build w 0 0 toks =
      (maskVal relevant toks % 2 ^ w, maskVal is_one toks % 2 ^ w) := by
  have h := build_eq w 0 0 toks
  rw [Nat.zero_mod] at h
  rw [h, buildNat_eq]
  simp

theorem build_testBit_rel (w : Nat) (toks : List Token) (i : Nat) :
    (build w 0 0 toks).1.testBit i =
      (decide (i < w) && (relevant (toks.reverse.getD i Token.dontCare) == 1)) := by
  rw [build_zero_eq]
  simp only [Nat.testBit_mod_two_pow]
  rw [maskVal_testBit relevant_le_one rfl]

theorem build_testBit_ones (w : Nat) (toks : List Token) (i : Nat) :
    (build w 0 0 toks).2.testBit i =
      (decide (i < w) && (is_one (toks.reverse.getD i Token.dontCare) == 1)) := by
  rw [build_zero_eq]
  simp only [Nat.testBit_mod_two_pow]
  rw [maskVal_testBit is_one_le_one rfl]

theorem is_one_imp_relevant {t : Token} (h : is_one t = 1) : relevant t = 1 := by
  cases t <;> simp_all [is_one, relevant]

theorem getD_reverse_eq (toks : List Token) (i : Nat) (h : i < toks.length) :
    toks.reverse.getD i Token.dontCare =
      toks.get ⟨toks.length - 1 - i, by omega⟩ := by
  have hrev : i < toks.reverse.length := by simpa using h
  rw [List.getD_eq_getElem?_getD, List.getElem?_eq_getElem hrev]
  simp only [Option.getD_some, List.getElem_reverse, List.get_eq_getElem]

theorem getD_reverse_default (toks : List Token) (i : Nat)
    (h : toks.length ≤ i) :
    toks.reverse.getD i Token.dontCare = Token.dontCare := by
  rw [List.getD_eq_getElem?_getD, List.getElem?_eq_none (by simpa using h)]
  rfl

theorem relevant_beq_iff (tok : Token) :
    ((relevant tok == 1) = true) ↔ (tok = Token.one ∨ tok = Token.zero) := by
  cases tok <;> simp [relevant]

theorem is_one_beq_iff (tok : Token) :
    ((is_one tok == 1) = true) ↔ tok = Token.one := by
  cases tok <;> simp [is_one]

theorem maskVal_append (f : Token → Nat) (xs ys : List Token) :
    maskVal f (xs ++ ys) = maskVal f xs * 2 ^ ys.length + maskVal f ys := by
  induction xs with
  | nil => simp [maskVal]
  | cons x rest ih =>
      rw [List.cons_append, maskVal, ih, List.length_append]
      simp only [maskVal]
      rw [pow_add]
      ring

theorem maskVal_drop_mod (f : Token → Nat) (w : Nat) (toks : List Token) :
    maskVal f toks % 2 ^ w =
      maskVal f (toks.drop (toks.length - w)) % 2 ^ w := by
  by_cases hw : toks.length ≤ w
  · rw [Nat.sub_eq_zero_of_le hw, List.drop_zero]
  · push_neg at hw
    conv_lhs => rw [← List.take_append_drop (toks.length - w) toks]
    rw [maskVal_append]
    have hlen : (toks.drop (toks.length - w)).length = w := by
      rw [List.length_drop]
      omega
    rw [hlen, Nat.mul_comm, Nat.mul_add_mod]

theorem build_drop (w : Nat) (toks : List Token) :
    build w 0 0 toks = build w 0 0 (toks.drop (toks.length - w)) := by
  rw [build_zero_eq, build_zero_eq, maskVal_drop_mod relevant w toks,
    maskVal_drop_mod is_one w toks]

theorem land_eq_of_low_bits {r L : Nat} (hr : r < 2 ^ L) {v1 v2 : Nat}
    (hv : v1 % 2 ^ L = v2 % 2 ^ L) : v1 &&& r = v2 &&& r := by
  apply Nat.eq_of_testBit_eq
  intro i
  rw [Nat.testBit_and, Nat.testBit_and]
  by_cases hi : i < L
  · have h1 : v1.testBit i = (v1 % 2 ^ L).testBit i := by
      rw [Nat.testBit_mod_two_pow]
      simp [hi]
    have h2 : v2.testBit i = (v2 % 2 ^ L).testBit i := by
      rw [Nat.testBit_mod_two_pow]
      simp [hi]
    rw [h1, h2, hv]
  · have hlt : r < 2 ^ i :=
      lt_of_lt_of_le hr (Nat.pow_le_pow_right (by omega) (by omega))
    rw [Nat.testBit_lt_two_pow hlt]
    simp

theorem ones_testBit_imp_rel (w : Nat) (toks : List Token) (i : Nat)
    (h : (build w 0 0 toks).2.testBit i = true) :
    (build w 0 0 toks).1.testBit i = true := by
  rw [build_testBit_ones] at h
  rw [build_testBit_rel]
  simp only [Bool.and_eq_true, decide_eq_true_eq, beq_iff_eq] at h ⊢
  exact ⟨h.1, is_one_imp_relevant h.2⟩

theorem ones_land_rel (w : Nat) (toks : List Token) :
    (build w 0 0 toks).2 &&& (build w 0 0 toks).1 = (build w 0 0 toks).2 := by
  apply Nat.eq_of_testBit_eq
  intro i
  rw [Nat.testBit_and]
  by_cases hb : (build w 0 0 toks).2.testBit i = true
  · simp [hb, ones_testBit_imp_rel w toks i hb]
  · simp [Bool.eq_false_iff.mpr hb]

theorem ones_land_not_rel (w : Nat) (toks : List Token) :
    (build w 0 0 toks).2 &&& ((2 ^ w - 1) ^^^ (build w 0 0 toks).1) = 0 := by
  apply Nat.eq_of_testBit_eq
  intro i
  rw [Nat.testBit_and, Nat.testBit_xor, Nat.zero_testBit,
    Nat.testBit_two_pow_sub_one, build_testBit_ones, build_testBit_rel]
  cases hw : decide (i < w)
  · simp
  · cases htok : toks.reverse.getD i Token.dontCare <;>
      simp [relevant, is_one]

/-- C1: for every compiled pattern with masks (relevant, ones) and every value
of the match width, the predicate returns exactly the boolean
(value & relevant) == ones; it is a pure function, so there are no side
effects to model. -/
theorem c1_match_semantics (w : Nat) (toks : List Token) (value : Nat) :
    matchValue (build w 0 0 toks).1 (build w 0 0 toks).2 value = true ↔
      value &&& (build w 0 0 toks).1 = (build w 0 0 toks).2 := by
  simp [matchValue]

/-- C2: bit i (0 = least significant) of the relevant mask is 1 iff the
i-th-from-the-right token (position length - 1 - i) is One or Zero, and bit i
of the ones mask is 1 iff that token is One, for every machine bit position
i < w of the accumulators built by left-to-right shift-and-insert from two
zero accumulators. -/
theorem c2_mask_bits (w : Nat) (toks : List Token) (i : Nat) (hi : i < w) :
    (((build w 0 0 toks).1.testBit i = true) ↔
       ∃ h : i < toks.length,
         toks.get ⟨toks.length - 1 - i, by omega⟩ = Token.one ∨
         toks.get ⟨toks.length - 1 - i, by omega⟩ = Token.zero) ∧
    (((build w 0 0 toks).2.testBit i = true) ↔
       ∃ h : i < toks.length,
         toks.get ⟨toks.length - 1 - i, by omega⟩ = Token.one) := by
  constructor
  · rw [build_testBit_rel]
    simp only [hi, decide_True, Bool.true_and]
    rw [relevant_beq_iff]
    by_cases hL : i < toks.length
    · rw [getD_reverse_eq toks i hL]
      exact ⟨fun hr => ⟨hL, hr⟩, fun ⟨_, hr⟩ => hr⟩
    · rw [getD_reverse_default toks i (by omega)]
      simp [hL]
  · rw [build_testBit_ones]
    simp only [hi, decide_True, Bool.true_and]
    rw [is_one_beq_iff]
    by_cases hL : i < toks.length
    · rw [getD_reverse_eq toks i hL]
      exact ⟨fun hr => ⟨hL, hr⟩, fun ⟨_, hr⟩ => hr⟩
    · rw [getD_reverse_default toks i (by omega)]
      simp [hL]

/-- C2 witness: the theorem instantiated at width 8, the one-token pattern 1,
and bit 0. -/
theorem c2_mask_bits_witness :
    0 < 8 ∧
      ((((build 8 0 0 [Token.one]).1.testBit 0 = true) ↔
         ∃ _ : 0 < [Token.one].length,
           [Token.one].get ⟨[Token.one].length - 1 - 0, by omega⟩ = Token.one ∨
           [Token.one].get ⟨[Token.one].length - 1 - 0, by omega⟩ =
             Token.zero) ∧
       (((build 8 0 0 [Token.one]).2.testBit 0 = true) ↔
         ∃ _ : 0 < [Token.one].length,
           [Token.one].get ⟨[Token.one].length - 1 - 0, by omega⟩ =
             Token.one)) :=
  ⟨by decide, c2_mask_bits 8 [Token.one] 0 (by decide)⟩

/-- C3: only the least-significant w pattern tokens determine the match result
at width w (excess most-significant tokens are silently discarded), and in
particular the 9-token pattern 1 1 _ _ _ _ _ _ _ matches the 8-bit value
0b11110000. -/
theorem c3_truncation :
    (∀ (w : Nat) (toks : List Token) (value : Nat),
        matchValue (build w 0 0 toks).1 (build w 0 0 toks).2 value =
          matchValue (build w 0 0 (toks.drop (toks.length - w))).1
            (build w 0 0 (toks.drop (toks.length - w))).2 value) ∧
    matchValue
        (build 8 0 0 [Token.one, Token.one, Token.dontCare, Token.dontCare,
          Token.dontCare, Token.dontCare, Token.dontCare, Token.dontCare,
          Token.dontCare]).1
        (build 8 0 0 [Token.one, Token.one, Token.dontCare, Token.dontCare,
          Token.dontCare, Token.dontCare, Token.dontCare, Token.dontCare,
          Token.dontCare]).2 0b11110000 = true := by
  constructor
  · intro w toks value
    rw [build_drop]
  · decide

/-- C4: for a pattern of length L matched at a width w ≥ L, two values that
agree on their low L bits produce the same match result: the un-set high bits
of the relevant mask make all higher value bits don't-care. -/
theorem c4_low_bits (w : Nat) (toks : List Token) (v1 v2 : Nat)
    (hL : toks.length ≤ w)
    (hv : v1 % 2 ^ toks.length = v2 % 2 ^ toks.length) :
    matchValue (build w 0 0 toks).1 (build w 0 0 toks).2 v1 =
      matchValue (build w 0 0 toks).1 (build w 0 0 toks).2 v2 := by
  have hrel : (build w 0 0 toks).1 < 2 ^ toks.length := by
    rw [build_zero_eq]
    exact Nat.lt_of_le_of_lt (Nat.mod_le _ _) (maskVal_lt relevant_le_one toks)
  unfold matchValue
  rw [land_eq_of_low_bits hrel hv]

/-- C4 witness: the theorem instantiated at width 8, the one-token pattern 1,
and the values 2 and 0, which agree on their low bit. -/
theorem c4_low_bits_witness :
    ([Token.one].length ≤ 8 ∧
        (2 : Nat) % 2 ^ [Token.one].length = 0 % 2 ^ [Token.one].length) ∧
      matchValue (build 8 0 0 [Token.one]).1 (build 8 0 0 [Token.one]).2 2 =
        matchValue (build 8 0 0 [Token.one]).1 (build 8 0 0 [Token.one]).2 0 :=
  ⟨⟨by decide, by decide⟩, c4_low_bits 8 [Token.one] 2 0 (by decide) (by decide)⟩

/-- C5 counterexample: the empty pattern is not accepted by the entry point of
the pattern compiler; the entry rule requires at least one token, so an empty
invocation matches no rule and is a compile-time error (modelled as none). -/
theorem c5_empty_counterexample : bitpat 8 [] = none := rfl

/-- C5 amended: the empty pattern is rejected by the compiler's entry point;
the internal mask-building rule applied to zero tokens yields
relevant = 0 and ones = 0, and a predicate with both masks zero matches every
value. -/
theorem c5_empty_amended :
    (∀ w : Nat, bitpat w [] = none) ∧
    (∀ w : Nat, build w 0 0 [] = (0, 0)) ∧
    (∀ value : Nat, matchValue 0 0 value = true) := by
  refine ⟨fun _ => rfl, fun _ => rfl, fun value => ?_⟩
  simp [matchValue]

/-- C6: for every pattern compiled at width w, the masks satisfy
ones & !relevant == 0 (with ! the width-w complement), both in the final
result and at every step of the accumulation: the accumulator pair after k
tokens is exactly the result of building the length-k prefix. -/
theorem c6_ones_subset_relevant (w : Nat) (toks : List Token) :
    ((build w 0 0 toks).2 &&& ((2 ^ w - 1) ^^^ (build w 0 0 toks).1) = 0) ∧
    ∀ k : Nat,
      (build w 0 0 (toks.take k)).2 &&&
        ((2 ^ w - 1) ^^^ (build w 0 0 (toks.take k)).1) = 0 :=
  ⟨ones_land_not_rel w toks, fun k => ones_land_not_rel w (toks.take k)⟩

/-- C7: compilation and matching are deterministic: compiling the same token
sequence yields one definite mask pair, and the predicate applied twice to the
same value yields the same boolean. -/
theorem c7_deterministic (w : Nat) (toks : List Token) :
    build w 0 0 toks = build w 0 0 toks ∧
    ∀ value : Nat,
      matchValue (build w 0 0 toks).1 (build w 0 0 toks).2 value =
        matchValue (build w 0 0 toks).1 (build w 0 0 toks).2 value :=
  ⟨rfl, fun _ => rfl⟩

/-- C8: matching is total: for every mask pair and value the predicate
evaluates to one of the two booleans, with no failure or error branch. -/
theorem c8_match_total (rel ones value : Nat) :
    matchValue rel ones value = true ∨ matchValue rel ones value = false := by
  cases h : matchValue rel ones value
  · exact Or.inr rfl
  · exact Or.inl rfl

set_option maxRecDepth 8192 in
/-- C9: over all 256 values of an 8-bit unsigned integer, the pattern
1 _ _ _ _ _ _ _ matches exactly the values >= 128 and the pattern
0 _ _ _ _ _ _ _ matches exactly the values < 128. -/
theorem c9_sign_test :
    ∀ v : Fin 256,
      (matchValue
          (build 8 0 0 [Token.one, Token.dontCare, Token.dontCare,
            Token.dontCare, Token.dontCare, Token.dontCare, Token.dontCare,
            Token.dontCare]).1
          (build 8 0 0 [Token.one, Token.dontCare, Token.dontCare,
            Token.dontCare, Token.dontCare, Token.dontCare, Token.dontCare,
            Token.dontCare]).2 v.val = decide (128 ≤ v.val)) ∧
      (matchValue
          (build 8 0 0 [Token.zero, Token.dontCare, Token.dontCare,
            Token.dontCare, Token.dontCare, Token.dontCare, Token.dontCare,
            Token.dontCare]).1
          (build 8 0 0 [Token.zero, Token.dontCare, Token.dontCare,
            Token.dontCare, Token.dontCare, Token.dontCare, Token.dontCare,
            Token.dontCare]).2 v.val = decide (v.val < 128)) := by
  decide

/-- C10: every compiled predicate from a nonempty pattern is satisfiable: the
value equal to the ones mask itself always matches. -/
theorem c10_satisfiable (w : Nat) (toks : List Token) (h : toks ≠ []) :
    matchValue (build w 0 0 toks).1 (build w 0 0 toks).2
      (build w 0 0 toks).2 = true := by
  simp [matchValue, ones_land_rel w toks]

/-- C10 witness: the theorem instantiated at width 8 and the one-token
pattern 1. -/
theorem c10_satisfiable_witness :
    ([Token.one] ≠ ([] : List Token)) ∧
      matchValue (build 8 0 0 [Token.one]).1 (build 8 0 0 [Token.one]).2
        (build 8 0 0 [Token.one]).2 = true :=
  ⟨by decide, c10_satisfiable 8 [Token.one] (by decide)⟩

end Bitpat
